import Mathlib

/-!
Verification of the fluxor-samsui native runtime against its specification.

The C++ sources under app/src/main/cpp are shallowly embedded:
pure routines (base64, XOR obfuscation, wire framing, client-list
manipulation) become Lean functions over byte lists (bytes are `Nat`
values below 256), and the concurrent modules (the IOBridge event queue
with its single-flight drain, the ThreadManager worker pool) become
labelled transition systems whose atomic steps are the lock-protected or
atomic regions of the code.  Machine integers are modelled as `Nat` with
explicit `% 2 ^ 32` where 32-bit truncation is observable.
-/

namespace MessageEncryption

/-- Byte values of the 64-character table BASE64_CHARS from
message_encryption.cpp: uppercase letters, lowercase letters, digits,
then the plus and slash characters. -/
def base64Chars : List Nat :=
  (List.range 26).map (fun i => 65 + i) ++
  (List.range 26).map (fun i => 97 + i) ++
  (List.range 10).map (fun i => 48 + i) ++
  [43, 47]

/-- Linear table search performed inside base64Decode: the first index of
BASE64_CHARS holding the byte c, none when c is not in the table. -/
def b64Index (c : Nat) : Option Nat :=
  base64Chars.findIdx? (fun x => x = c)

/-- Inner while-loop of base64Encode: while valb is nonnegative, push the
digit (val >> valb) & 0x3F (that is, mod 64) and decrease valb by 6.
Returns the pushed digits in order together with the final valb. -/
def pushDigits (val : Nat) (valb : Int) : List Nat × Int :=
  if h : 0 ≤ valb then
    let d := (val >>> valb.toNat) % 64
    let p := pushDigits val (valb - 6)
    (d :: p.1, p.2)
  else ([], valb)
termination_by (valb + 6).toNat
decreasing_by omega

/-- Byte loop of base64Encode from message_encryption.cpp, producing the
6-bit digit stream.  Each input byte is folded into the accumulator val
(val = (val << 8) + c, with valb += 8) and digits are emitted by the
inner while loop; after the loop, a leftover partial group (valb > -6)
emits ((val << 8) >> (valb + 8)) & 0x3F.  The C++ accumulator is a
32-bit int that is never masked; every emitted digit only reads the low
13 bits, which agree with the unbounded accumulator used here. -/
def encodeAux : List Nat → Nat → Int → List Nat
  | [], val, valb =>
      if -6 < valb then [((val * 256) >>> (valb + 8).toNat) % 64] else []
  | c :: rest, val, valb =>
      (pushDigits (val * 256 + c) (valb + 8)).1 ++
        encodeAux rest (val * 256 + c) (pushDigits (val * 256 + c) (valb + 8)).2

/-- base64Encode from message_encryption.cpp over byte lists: the digit
stream mapped through BASE64_CHARS, padded with the byte 61 (the equals
sign) until the length is a multiple of 4. -/
def base64Encode (input : List Nat) : List Nat :=
  let digits := (encodeAux input 0 (-6)).map (fun d => base64Chars.getD d 0)
  digits ++ List.replicate ((4 - digits.length % 4) % 4) 61

/-- Character loop of base64Decode from message_encryption.cpp: the byte
61 (equals sign) terminates the loop, bytes absent from the table are
skipped, and each table hit folds 6 bits into the accumulator
(val = (val << 6) + pos, valb += 6), emitting the byte
(val >> valb) & 0xFF (that is, mod 256) whenever valb reaches zero. -/
def decodeAux : List Nat → Nat → Int → List Nat
  | [], _, _ => []
  | c :: rest, val, valb =>
      if c = 61 then []
      else
        match b64Index c with
        | none => decodeAux rest val valb
        | some pos =>
            if 0 ≤ valb + 6 then
              (((val * 64 + pos) >>> (valb + 6).toNat) % 256) ::
                decodeAux rest (val * 64 + pos) (valb + 6 - 8)
            else decodeAux rest (val * 64 + pos) (valb + 6)

/-- base64Decode from message_encryption.cpp. -/
def base64Decode (input : List Nat) : List Nat :=
  decodeAux input 0 (-8)

/-- Byte values of the constant ENCRYPTION_KEY "FluxorSecretKey2024!" from
message_encryption.cpp. -/
def encryptionKey : List Nat :=
  [70, 108, 117, 120, 111, 114, 83, 101, 99, 114, 101, 116,
   75, 101, 121, 50, 48, 50, 52, 33]

/-- XOR loop shared by encryptMessage and decryptMessage: byte i of the
input is XORed with ENCRYPTION_KEY[i % ENCRYPTION_KEY.size()]. -/
def xorKeyFrom : Nat → List Nat → List Nat
  | _, [] => []
  | i, c :: rest =>
      (c ^^^ encryptionKey.getD (i % encryptionKey.length) 0) ::
        xorKeyFrom (i + 1) rest

/-- encryptMessage from message_encryption.cpp: the empty string is
returned unchanged; otherwise the bytes are XORed with the key and
base64-encoded. -/
def encryptMessage (message : List Nat) : List Nat :=
  if message = [] then message
  else base64Encode (xorKeyFrom 0 message)

/-- decryptMessage from message_encryption.cpp: the empty string is
returned unchanged; otherwise the bytes are base64-decoded and XORed
with the key. -/
def decryptMessage (encryptedMessage : List Nat) : List Nat :=
  if encryptedMessage = [] then encryptedMessage
  else xorKeyFrom 0 (base64Decode encryptedMessage)

/-- Shape of the 6-bit digit stream base64Encode emits, computed three
input bytes at a time.  This is a derived, chunked view of encodeAux
used to organise the round-trip proof; the theorem encodeAux_eq_encSpec
connects it to the loop-faithful definition. -/
def encSpec : List Nat → List Nat
  | [] => []
  | [a] => [a / 4, a % 4 * 16]
  | [a, b] => [a / 4, a % 4 * 16 + b / 16, b % 16 * 4]
  | a :: b :: c :: rest =>
      a / 4 :: (a % 4 * 16 + b / 16) :: (b % 16 * 4 + c / 64) :: c % 64 ::
        encSpec rest

end MessageEncryption

namespace IOBridge

/-- EventType from io_bridge.h. -/
inductive EventType
  | STRING | INT | FLOAT | DOUBLE | BOOLEAN | BYTE_ARRAY
deriving DecidableEq

/-- Payload of an Event: the union plus string and byte-array members of
struct Event in io_bridge.h, made a tagged sum.  Float and double
payloads are carried as their raw bit patterns, which the queue never
inspects. -/
inductive EventData
  | stringValue (s : String)
  | intValue (i : Int)
  | floatValue (bits : Nat)
  | doubleValue (bits : Nat)
  | boolValue (b : Bool)
  | byteArrayValue (bytes : List Nat)
deriving DecidableEq

/-- Event from io_bridge.h: type tag, eventId and one payload. -/
structure Event where
  type : EventType
  eventId : String
  data : EventData
deriving DecidableEq

/-- Fields of IOBridge observable by the postX entry points: whether
jvm_ and listenerObject_ are non-null, whether threadManager_ is set,
the locked event queue, and the atomic processingScheduled_ flag. -/
structure BridgeState where
  jvmSet : Bool
  listenerSet : Bool
  threadManagerSet : Bool
  eventQueue : List Event
  processingScheduled : Bool
deriving DecidableEq

/-- IOBridge::isInitialized: jvm_ and listenerObject_ both non-null. -/
def isInitialized (st : BridgeState) : Bool :=
  st.jvmSet && st.listenerSet

/-- Common body of the six postX methods in io_bridge.cpp: early return
when the bridge is not initialized; otherwise append the event under the
queue lock, and if threadManager_ is set and the compare-and-swap on
processingScheduled_ succeeds (false to true), submit one drain task.
The Bool result records whether a task was submitted. -/
def postEvent (st : BridgeState) (e : Event) : BridgeState × Bool :=
  if !(isInitialized st) then (st, false)
  else
    let st1 := { st with eventQueue := st.eventQueue ++ [e] }
    if st1.threadManagerSet && !st1.processingScheduled then
      ({ st1 with processingScheduled := true }, true)
    else (st1, false)

/-- IOBridge::postStringEvent. -/
def postStringEvent (st : BridgeState) (eventId : String) (data : String) :
    BridgeState × Bool :=
  postEvent st { type := .STRING, eventId := eventId, data := .stringValue data }

/-- IOBridge::postIntEvent. -/
def postIntEvent (st : BridgeState) (eventId : String) (data : Int) :
    BridgeState × Bool :=
  postEvent st { type := .INT, eventId := eventId, data := .intValue data }

/-- IOBridge::postFloatEvent (the float payload as its bit pattern). -/
def postFloatEvent (st : BridgeState) (eventId : String) (data : Nat) :
    BridgeState × Bool :=
  postEvent st { type := .FLOAT, eventId := eventId, data := .floatValue data }

/-- IOBridge::postDoubleEvent (the double payload as its bit pattern). -/
def postDoubleEvent (st : BridgeState) (eventId : String) (data : Nat) :
    BridgeState × Bool :=
  postEvent st { type := .DOUBLE, eventId := eventId, data := .doubleValue data }

/-- IOBridge::postBooleanEvent. -/
def postBooleanEvent (st : BridgeState) (eventId : String) (data : Bool) :
    BridgeState × Bool :=
  postEvent st { type := .BOOLEAN, eventId := eventId, data := .boolValue data }

/-- IOBridge::postByteArrayEvent (data is the copied byte range). -/
def postByteArrayEvent (st : BridgeState) (eventId : String) (data : List Nat) :
    BridgeState × Bool :=
  postEvent st
    { type := .BYTE_ARRAY, eventId := eventId, data := .byteArrayValue data }

/-- A drain task submitted to the thread pool, in one of its two phases:
still before processEvents' snapshot swap, or delivering the snapshot it
swapped out. -/
inductive DrainTask
  | queuedTask
  | delivering (snapshot : List Event)
deriving DecidableEq

/-- State of the event-dispatch system for an initialized bridge with a
registered sink and a running pool (the context of the concurrency
claims): the queue, the single-flight flag, the drain tasks logically in
flight, and the events delivered to the sink so far in delivery order.
The drains field is a list so that a violation of the single-flight
guarantee would be representable. -/
structure SysState where
  eventQueue : List Event
  processingScheduled : Bool
  drains : List DrainTask
  delivered : List Event
deriving DecidableEq

/-- Atomic actions of producers and drain tasks.  A postX call performs
enqueue (its lock-protected append) and then cas (its atomic
compare-and-swap); a drain task performs swap (the lock-protected move
of the whole queue into its local snapshot), one deliverOne per
snapshot event (the sink callback), and finish (the lambda clearing
processingScheduled_ after processEvents returns, ending the task). -/
inductive Label
  | enqueue (e : Event)
  | cas
  | swap
  | deliverOne
  | finish
deriving DecidableEq

/-- Interleaving semantics of io_bridge.cpp's postX/processEvents, one
atomic region per step.  Labels enqueue and cas are unconstrained in
their pairing, which only enlarges the set of behaviours beyond the real
ones (where each post does enqueue then cas), so invariants proved over
this relation hold a fortiori of the real interleavings. -/
inductive Step : SysState → Label → SysState → Prop
  | enqueue (s : SysState) (e : Event) :
      Step s (.enqueue e) { s with eventQueue := s.eventQueue ++ [e] }
  | casSucceed (s : SysState) :
      s.processingScheduled = false →
      Step s .cas { s with processingScheduled := true,
                           drains := s.drains ++ [.queuedTask] }
  | casFail (s : SysState) :
      s.processingScheduled = true →
      Step s .cas s
  | swap (s : SysState) (pre post : List DrainTask) :
      s.drains = pre ++ .queuedTask :: post →
      Step s .swap { s with eventQueue := [],
                            drains := pre ++ .delivering s.eventQueue :: post }
  | deliverOne (s : SysState) (pre post : List DrainTask) (e : Event)
      (rest : List Event) :
      s.drains = pre ++ .delivering (e :: rest) :: post →
      Step s .deliverOne { s with delivered := s.delivered ++ [e],
                                  drains := pre ++ .delivering rest :: post }
  | finish (s : SysState) (pre post : List DrainTask) :
      s.drains = pre ++ .delivering [] :: post →
      Step s .finish { s with drains := pre ++ post,
                              processingScheduled := false }

/-- State of the bridge before any event is posted. -/
def initState : SysState :=
  { eventQueue := [], processingScheduled := false, drains := [],
    delivered := [] }

/-- Reachability along a recorded trace of labels. -/
inductive ReachableVia : SysState → List Label → Prop
  | init : ReachableVia initState []
  | step {s : SysState} {tr : List Label} {l : Label} {s' : SysState} :
      ReachableVia s tr → Step s l s' → ReachableVia s' (tr ++ [l])

/-- Reachability of a state under some interleaving. -/
def Reachable (s : SysState) : Prop :=
  ∃ tr, ReachableVia s tr

/-- Events posted along a trace, in trace order. -/
def postedEvents (tr : List Label) : List Event :=
  tr.filterMap fun l =>
    match l with
    | .enqueue e => some e
    | _ => none

/-- Events held by in-flight drain snapshots, in order. -/
def snapshotEvents (s : SysState) : List Event :=
  s.drains.foldr
    (fun d acc =>
      (match d with
       | .queuedTask => []
       | .delivering es => es) ++ acc)
    []

/-- A step of a drain task only: what can still execute once no further
postX call is made. -/
def DrainStep (s s' : SysState) : Prop :=
  Step s .swap s' ∨ Step s .deliverOne s' ∨ Step s .finish s'

/-- First event of the stranded-event scenario. -/
def eventA : Event :=
  { type := .STRING, eventId := "id", data := .stringValue "a" }

/-- Second event of the stranded-event scenario, posted between the
drain's snapshot swap and its clearing of the single-flight flag. -/
def eventB : Event :=
  { type := .STRING, eventId := "id", data := .stringValue "b" }

/-- Trace of the stranded-event scenario: post A (enqueue, cas succeeds,
drain scheduled); the drain swaps the queue; post B (enqueue, cas fails
because the flag is still set); the drain delivers A and finishes. -/
def strandedTrace : List Label :=
  [.enqueue eventA, .cas, .swap, .enqueue eventB, .cas, .deliverOne, .finish]

/-- Final state of the stranded-event scenario: B sits in the queue, no
drain is in flight, the flag is clear, only A was delivered. -/
def strandedState : SysState :=
  { eventQueue := [eventB], processingScheduled := false, drains := [],
    delivered := [eventA] }

end IOBridge

namespace ThreadManager

/-- Pool-side fields of ThreadManager observable by submitTask,
workerFunction and shutdownThreadPool: the FIFO task queue (tasks are
identified by numbers), the stopPool_ flag, the number of pool workers
that have not yet exited their loop, and the tasks executed so far in
execution order. -/
structure PoolState where
  taskQueue : List Nat
  stopPool : Bool
  workers : Nat
  ran : List Nat
deriving DecidableEq

/-- Atomic actions on the pool: a submitTask call (dropped when the stop
flag is set, appended otherwise), shutdownThreadPool setting the stop
flag, a worker dequeueing and running the front task, and a worker
exiting its loop (which workerFunction does only when the stop flag is
set and the queue is empty). -/
inductive PoolLabel
  | submit (t : Nat)
  | setStop
  | runTask
  | workerExit
deriving DecidableEq

/-- Interleaving semantics of thread_manager.cpp's pool, one
lock-protected region per step.  runTask merges the dequeue and the
execution of the task; workerFunction dequeues whenever the queue is
nonempty, whether or not the stop flag is set. -/
inductive PoolStep : PoolState → PoolLabel → PoolState → Prop
  | submitAccept {s : PoolState} (t : Nat) :
      s.stopPool = false →
      PoolStep s (.submit t) { s with taskQueue := s.taskQueue ++ [t] }
  | submitDropped {s : PoolState} (t : Nat) :
      s.stopPool = true →
      PoolStep s (.submit t) s
  | setStop {s : PoolState} :
      PoolStep s .setStop { s with stopPool := true }
  | runTask {s : PoolState} (t : Nat) (rest : List Nat) :
      s.taskQueue = t :: rest →
      0 < s.workers →
      PoolStep s .runTask { s with taskQueue := rest, ran := s.ran ++ [t] }
  | workerExit {s : PoolState} :
      s.stopPool = true →
      s.taskQueue = [] →
      0 < s.workers →
      PoolStep s .workerExit { s with workers := s.workers - 1 }

/-- Pool state right after initializeThreadPool(n): empty queue, stop
flag clear, n workers. -/
def initPool (n : Nat) : PoolState :=
  { taskQueue := [], stopPool := false, workers := n, ran := [] }

/-- Reachability of a pool state along a recorded trace, starting from a
pool of n workers. -/
inductive PoolReachVia (n : Nat) : PoolState → List PoolLabel → Prop
  | init : PoolReachVia n (initPool n) []
  | step {s : PoolState} {tr : List PoolLabel} {l : PoolLabel} {s' : PoolState} :
      PoolReachVia n s tr → PoolStep s l s' → PoolReachVia n s' (tr ++ [l])

/-- Labels of a trace that precede the first setStop. -/
def beforeStop : List PoolLabel → List PoolLabel
  | [] => []
  | .setStop :: _ => []
  | l :: rest => l :: beforeStop rest

/-- Tasks a trace submitted while the stop flag was still clear (submits
after shutdown are silently dropped). -/
def acceptedSubmits (tr : List PoolLabel) : List Nat :=
  (beforeStop tr).filterMap fun l =>
    match l with
    | .submit t => some t
    | _ => none

/-- Trace of the executed-after-stop scenario for a pool of one worker:
one task is submitted, shutdown sets the stop flag before any worker has
dequeued it, the worker then dequeues and runs it, and only then exits. -/
def shutdownTrace : List PoolLabel :=
  [.submit 1, .setStop, .runTask, .workerExit]

/-- Final state of the executed-after-stop scenario: all workers have
exited (shutdown's joins have returned) and the task queued at
shutdown time was executed. -/
def shutdownState : PoolState :=
  { taskQueue := [], stopPool := true, workers := 0, ran := [1] }

end ThreadManager

namespace SocketManager

/-- MAX_CLIENTS from socket_manager.cpp. -/
def MAX_CLIENTS : Nat := 10

/-- BUFFER_SIZE from socket_manager.cpp: the maximum frame size the
reader accepts. -/
def BUFFER_SIZE : Nat := 4096

/-- ClientConnection from socket_manager.h: socket descriptor, connected
flag, and whether the owned reader thread is joinable. -/
structure ClientConnection where
  socketFd : Int
  isConnected : Bool
  joinable : Bool
deriving DecidableEq

/-- Big-endian byte order of a 32-bit value, as htonl produces for the
length that sendWorker writes. -/
def be32 (n : Nat) : List Nat :=
  [n / 2 ^ 24 % 256, n / 2 ^ 16 % 256, n / 2 ^ 8 % 256, n % 256]

/-- Value of a 4-byte big-endian length field, as the reader's ntohl
computes it; 0 on a list that is not 4 bytes. -/
def readBE32 : List Nat → Nat
  | [a, b, c, d] => ((a * 256 + b) * 256 + c) * 256 + d
  | _ => 0

/-- Bytes sendWorker writes to one socket for one message when every
send succeeds: the 4-byte prefix htonl(uint32(message.length()))
followed by the message bytes.  The cast to uint32_t truncates the
length mod 2^32. -/
def frameFor (message : List Nat) : List Nat :=
  be32 (message.length % 2 ^ 32) ++ message

/-- Point-in-time snapshot sendWorker takes under the client-list lock:
the descriptors of clients that are connected with a nonnegative fd. -/
def clientSnapshot (clients : List ClientConnection) : List Int :=
  (clients.filter fun c => c.isConnected && decide (0 ≤ c.socketFd)).map
    (fun c => c.socketFd)

/-- One message broadcast of sendWorker on the all-sends-succeed path:
each snapshotted socket receives the frame. -/
def sendBatch (message : List Nat) (clients : List ClientConnection) :
    List (Int × List Nat) :=
  (clientSnapshot clients).map fun fd => (fd, frameFor message)

/-- SocketManager::getConnectedClientCount: clients whose connected flag
is set. -/
def getConnectedClientCount (clients : List ClientConnection) : Nat :=
  (clients.filter fun c => c.isConnected).length

/-- Search-and-erase loop of removeClient: locate the first client with
the given descriptor, mark it disconnected, and detach it from the
list.  none when no client matches. -/
def extractFirst : List ClientConnection → Int →
    Option (ClientConnection × List ClientConnection)
  | [], _ => none
  | c :: rest, fd =>
      if c.socketFd = fd then some ({ c with isConnected := false }, rest)
      else
        match extractFirst rest fd with
        | none => none
        | some (f, rem) => some (f, c :: rem)

/-- Externally visible actions of one removeClient call: the detached
connection (marked disconnected), the descriptor it closed, whether it
joined the reader thread, and the connection-count event it raised via
postIntEvent("socket_client_count", count). -/
structure RemovalEffects where
  removed : Option ClientConnection
  closedFd : Option Int
  joined : Bool
  countEvent : Option Nat
deriving DecidableEq

/-- Effects of a removeClient call that found no matching client. -/
def noEffects : RemovalEffects :=
  { removed := none, closedFd := none, joined := false, countEvent := none }

/-- SocketManager::removeClient: under the lock, locate by descriptor,
mark disconnected and erase; outside the lock, close the descriptor (if
nonnegative), join the reader thread (if joinable), and notify the
connection-count change (when ioBridge_ is set) with the count over the
already-updated list.  When nothing matches, nothing happens. -/
def removeClient (clients : List ClientConnection) (ioBridgeSet : Bool)
    (socketFd : Int) : List ClientConnection × RemovalEffects :=
  match extractFirst clients socketFd with
  | none => (clients, noEffects)
  | some (found, remaining) =>
      (remaining,
       { removed := some found,
         closedFd := if 0 ≤ found.socketFd then some found.socketFd else none,
         joined := found.joinable,
         countEvent :=
           if ioBridgeSet then some (getConnectedClientCount remaining)
           else none })

/-- How the reader loop of handleClient ended: a short read of the
4-byte length field (peer closed mid-header), a length that is zero or
above BUFFER_SIZE, or a short read of the payload. -/
inductive ReadEnd
  | shortHeader
  | badLength (len : Nat)
  | shortBody (len : Nat)
deriving DecidableEq

/-- Reader loop of SocketManager::handleClient over the finite byte
stream the peer sends before closing, for a running server: read the
4-byte big-endian length to completion (fewer than 4 bytes left means
the MSG_WAITALL recv came up short), reject zero or over-BUFFER_SIZE
lengths, read exactly len payload bytes (fewer left means a short
read), forward the payload as a message, and loop.  Returns the
messages forwarded via postStringEvent("socket_message", ...) in order,
and how the loop ended. -/
def handleClientLoop (input : List Nat) : List (List Nat) × ReadEnd :=
  match input with
  | a :: b :: c :: d :: rest =>
      let len := ((a * 256 + b) * 256 + c) * 256 + d
      if _h0 : len = 0 ∨ BUFFER_SIZE < len then ([], .badLength len)
      else if _h1 : rest.length < len then ([], .shortBody len)
      else
        let p := handleClientLoop (rest.drop len)
        ((rest.take len) :: p.1, p.2)
  | _ => ([], .shortHeader)
termination_by input.length
decreasing_by simp [List.length_drop]; omega

/-- SocketManager::handleClient in full: run the reader loop on the
client's incoming bytes, then remove that client — every loop exit,
framing violations included, falls through to removeClient(socket). -/
def handleClient (clients : List ClientConnection) (ioBridgeSet : Bool)
    (clientSocket : Int) (input : List Nat) :
    (List (List Nat) × ReadEnd) × (List ClientConnection × RemovalEffects) :=
  (handleClientLoop input, removeClient clients ioBridgeSet clientSocket)

/-- Outcomes of the OS calls startServer makes: the descriptor socket()
returns (negative on failure), and success of setsockopt, bind and
listen. -/
structure OsCalls where
  socketResult : Int
  setsockoptOk : Bool
  bindOk : Bool
  listenOk : Bool
deriving DecidableEq

/-- Fields of SocketManager that startServer can touch: the listening
socket, the running flag, the port, the active-client list, the
stop-sending flag, and whether the accept and sender threads were
launched. -/
structure ServerState where
  serverSocket : Int
  isRunning : Bool
  port : Int
  clients : List ClientConnection
  stopSending : Bool
  acceptThreadStarted : Bool
  sendThreadStarted : Bool
deriving DecidableEq

/-- SocketManager::startServer: immediately returns false when already
running; otherwise creates the socket (storing the descriptor), sets
options, binds, listens — closing and resetting the descriptor on each
failure — and on success records the port, raises the running flag,
clears stopSending_ and launches the accept and sender threads. -/
def startServer (s : ServerState) (os : OsCalls) (port : Int) :
    Bool × ServerState :=
  if s.isRunning then (false, s)
  else
    let s1 := { s with serverSocket := os.socketResult }
    if s1.serverSocket < 0 then (false, s1)
    else if !os.setsockoptOk then (false, { s1 with serverSocket := -1 })
    else if !os.bindOk then (false, { s1 with serverSocket := -1 })
    else if !os.listenOk then (false, { s1 with serverSocket := -1 })
    else
      (true,
       { s1 with port := port, isRunning := true, stopSending := false,
                 acceptThreadStarted := true, sendThreadStarted := true })

end SocketManager

namespace BlobStorage

/-- Filesystem contents visible to BlobStorage: existing regular files
as an association of paths to byte contents. -/
abbrev FS := List (String × List Nat)

/-- Replace or create the file at a path. -/
def setFile (fs : FS) (p : String) (v : List Nat) : FS :=
  (p, v) :: fs.filter fun e => !(e.1 == p)

/-- Outcomes of the filesystem calls saveMessages makes:
ensureDirectoryExists, the ofstream open, and stream goodness after the
write. -/
structure FsOracle where
  dirOk : Bool
  openOk : Bool
  writeOk : Bool
deriving DecidableEq

/-- BlobStorage::saveMessages: reject a null data pointer or zero length
before any filesystem access; then ensure the directory, open the file
truncating it, and write length bytes from data. -/
def saveMessages (fs : FS) (os : FsOracle) (filePath : String)
    (data : Option (List Nat)) (length : Nat) : Bool × FS :=
  if data = none ∨ length = 0 then (false, fs)
  else if !os.dirOk then (false, fs)
  else if !os.openOk then (false, fs)
  else
    let fs1 := setFile fs filePath []
    let bytes := (data.getD []).take length
    if !os.writeOk then (false, fs1)
    else (true, setFile fs1 filePath bytes)

/-- BlobStorage::loadMessages on the readable path: a missing file
clears the output and succeeds; an existing regular file yields its
contents (an empty file likewise clears the output and succeeds). -/
def loadMessages (fs : FS) (filePath : String) : Bool × List Nat :=
  match fs.lookup filePath with
  | none => (true, [])
  | some content => (true, content)

end BlobStorage

namespace MessageEncryption

theorem pushDigits_neg (val : Nat) (valb : Int) (h : valb < 0) :
    pushDigits val valb = ([], valb) := by
  rw [pushDigits]
  simp [Int.not_le.mpr h]

theorem pushDigits_two (val : Nat) :
    pushDigits val 2 = ([(val >>> 2) % 64], -4) := by
  rw [pushDigits, pushDigits]
  norm_num
  rfl

theorem pushDigits_four (val : Nat) :
    pushDigits val 4 = ([(val >>> 4) % 64], -2) := by
  rw [pushDigits, pushDigits]
  norm_num
  rfl

theorem pushDigits_six (val : Nat) :
    pushDigits val 6 = ([(val >>> 6) % 64, (val >>> 0) % 64], -6) := by
  rw [pushDigits, pushDigits, pushDigits]
  norm_num
  rfl


theorem encodeAux_eq_encSpec (l : List Nat) (h : ∀ b ∈ l, b < 256) (val : Nat) :
    encodeAux l val (-6) = encSpec l := by
  match l with
  | [] => simp [encodeAux, encSpec]
  | [a] =>
      have ha : a < 256 := h a (by simp)
      show encodeAux [a] val (-6) = encSpec [a]
      have e1 : (-6 : Int) + 8 = 2 := by norm_num
      simp only [encodeAux, encSpec, e1, pushDigits_two]
      norm_num
      constructor
      · show (val * 256 + a) >>> 2 % 64 = a / 4
        simp [Nat.shiftRight_eq_div_pow]
        omega
      · show ((val * 256 + a) * 256) >>> Int.toNat (-4 + 8) % 64 = a % 4 * 16
        have : Int.toNat (-4 + 8) = 4 := by decide
        rw [this]
        simp [Nat.shiftRight_eq_div_pow]
        omega
  | [a, b] =>
      have ha : a < 256 := h a (by simp)
      have hb : b < 256 := h b (by simp)
      show encodeAux [a, b] val (-6) = encSpec [a, b]
      have e1 : (-6 : Int) + 8 = 2 := by norm_num
      have e2 : (-4 : Int) + 8 = 4 := by norm_num
      simp only [encodeAux, encSpec, e1, e2, pushDigits_two, pushDigits_four]
      norm_num
      refine ⟨?_, ?_, ?_⟩
      · show (val * 256 + a) >>> 2 % 64 = a / 4
        simp [Nat.shiftRight_eq_div_pow]; omega
      · show ((val * 256 + a) * 256 + b) >>> 4 % 64 = a % 4 * 16 + b / 16
        simp [Nat.shiftRight_eq_div_pow]; omega
      · show (((val * 256 + a) * 256 + b) * 256) >>> Int.toNat (-2 + 8) % 64 = b % 16 * 4
        have : Int.toNat (-2 + 8) = 6 := by decide
        rw [this]
        simp [Nat.shiftRight_eq_div_pow]; omega
  | a :: b :: c :: rest =>
      have ha : a < 256 := h a (by simp)
      have hb : b < 256 := h b (by simp)
      have hc : c < 256 := h c (by simp)
      have ih := encodeAux_eq_encSpec rest (fun x hx => h x (by simp [hx]))
        (((val * 256 + a) * 256 + b) * 256 + c)
      show encodeAux (a :: b :: c :: rest) val (-6) = encSpec (a :: b :: c :: rest)
      have e1 : (-6 : Int) + 8 = 2 := by norm_num
      have e2 : (-4 : Int) + 8 = 4 := by norm_num
      have e3 : (-2 : Int) + 8 = 6 := by norm_num
      simp only [encodeAux, encSpec, e1, e2, e3, pushDigits_two, pushDigits_four,
        pushDigits_six, ih]
      norm_num
      refine ⟨?_, ?_, ?_, ?_⟩
      · show (val * 256 + a) >>> 2 % 64 = a / 4
        simp [Nat.shiftRight_eq_div_pow]; omega
      · show ((val * 256 + a) * 256 + b) >>> 4 % 64 = a % 4 * 16 + b / 16
        simp [Nat.shiftRight_eq_div_pow]; omega
      · show (((val * 256 + a) * 256 + b) * 256 + c) >>> 6 % 64 = b % 16 * 4 + c / 64
        simp [Nat.shiftRight_eq_div_pow]; omega
      · show (((val * 256 + a) * 256 + b) * 256 + c) >>> 0 % 64 = c % 64
        simp [Nat.shiftRight_eq_div_pow]
        omega
termination_by l.length


theorem b64Index_table : ∀ d < 64, b64Index (base64Chars.getD d 0) = some d := by
  decide

theorem b64Char_ne_61 : ∀ d < 64, base64Chars.getD d 0 ≠ 61 := by
  decide

theorem decodeAux_cons_valid (d : Nat) (hd : d < 64) (rest : List Nat)
    (val : Nat) (valb : Int) :
    decodeAux (base64Chars.getD d 0 :: rest) val valb =
      if 0 ≤ valb + 6 then
        (((val * 64 + d) >>> (valb + 6).toNat) % 256) ::
          decodeAux rest (val * 64 + d) (valb + 6 - 8)
      else decodeAux rest (val * 64 + d) (valb + 6) := by
  simp only [decodeAux]
  rw [if_neg (b64Char_ne_61 d hd), b64Index_table d hd]

theorem decodeAux_end61 (tail : List Nat) (ht : tail = [] ∨ ∃ t, tail = 61 :: t)
    (val : Nat) (valb : Int) : decodeAux tail val valb = [] := by
  rcases ht with h1 | ⟨t, h1⟩ <;> subst h1 <;> simp [decodeAux]


theorem decodeAux_encSpec (l : List Nat) (h : ∀ b ∈ l, b < 256) (val : Nat)
    (tail : List Nat) (ht : tail = [] ∨ ∃ t, tail = 61 :: t) :
    decodeAux ((encSpec l).map (fun d => base64Chars.getD d 0) ++ tail) val (-8) =
      l := by
  match l with
  | [] =>
      simp only [encSpec, List.map_nil, List.nil_append]
      exact decodeAux_end61 tail ht val (-8)
  | [a] =>
      have ha : a < 256 := h a (by simp)
      simp only [encSpec, List.map_cons, List.map_nil, List.cons_append,
        List.nil_append]
      rw [decodeAux_cons_valid (a / 4) (by omega)]
      rw [if_neg (by norm_num)]
      have e1 : (-8 : Int) + 6 = -2 := by norm_num
      rw [e1]
      rw [decodeAux_cons_valid (a % 4 * 16) (by omega)]
      rw [if_pos (by norm_num)]
      have e2 : (-2 : Int) + 6 = 4 := by norm_num
      have e3 : (4 : Int) - 8 = -4 := by norm_num
      rw [e2, e3, decodeAux_end61 tail ht]
      have e4 : Int.toNat 4 = 4 := rfl
      rw [e4]
      simp only [List.cons.injEq, and_true]
      simp [Nat.shiftRight_eq_div_pow]
      omega
  | [a, b] =>
      have ha : a < 256 := h a (by simp)
      have hb : b < 256 := h b (by simp)
      simp only [encSpec, List.map_cons, List.map_nil, List.cons_append,
        List.nil_append]
      rw [decodeAux_cons_valid (a / 4) (by omega)]
      rw [if_neg (by norm_num)]
      have e1 : (-8 : Int) + 6 = -2 := by norm_num
      rw [e1]
      rw [decodeAux_cons_valid (a % 4 * 16 + b / 16) (by omega)]
      rw [if_pos (by norm_num)]
      have e2 : (-2 : Int) + 6 = 4 := by norm_num
      have e3 : (4 : Int) - 8 = -4 := by norm_num
      rw [e2, e3]
      rw [decodeAux_cons_valid (b % 16 * 4) (by omega)]
      rw [if_pos (by norm_num)]
      have e4 : (-4 : Int) + 6 = 2 := by norm_num
      have e5 : (2 : Int) - 8 = -6 := by norm_num
      rw [e4, e5, decodeAux_end61 tail ht]
      have e6 : Int.toNat 4 = 4 := rfl
      have e7 : Int.toNat 2 = 2 := rfl
      rw [e6, e7]
      simp only [List.cons.injEq, and_true]
      constructor
      · simp [Nat.shiftRight_eq_div_pow]
        omega
      · simp [Nat.shiftRight_eq_div_pow]
        omega
  | a :: b :: c :: rest =>
      have ha : a < 256 := h a (by simp)
      have hb : b < 256 := h b (by simp)
      have hc : c < 256 := h c (by simp)
      have ih := decodeAux_encSpec rest (fun x hx => h x (by simp [hx]))
        ((((val * 64 + a / 4) * 64 + (a % 4 * 16 + b / 16)) * 64 +
            (b % 16 * 4 + c / 64)) * 64 + c % 64) tail ht
      simp only [encSpec, List.map_cons, List.cons_append]
      rw [decodeAux_cons_valid (a / 4) (by omega)]
      rw [if_neg (by norm_num)]
      have e1 : (-8 : Int) + 6 = -2 := by norm_num
      rw [e1]
      rw [decodeAux_cons_valid (a % 4 * 16 + b / 16) (by omega)]
      rw [if_pos (by norm_num)]
      have e2 : (-2 : Int) + 6 = 4 := by norm_num
      have e3 : (4 : Int) - 8 = -4 := by norm_num
      rw [e2, e3]
      rw [decodeAux_cons_valid (b % 16 * 4 + c / 64) (by omega)]
      rw [if_pos (by norm_num)]
      have e4 : (-4 : Int) + 6 = 2 := by norm_num
      have e5 : (2 : Int) - 8 = -6 := by norm_num
      rw [e4, e5]
      rw [decodeAux_cons_valid (c % 64) (by omega)]
      rw [if_pos (by norm_num)]
      have e6 : (-6 : Int) + 6 = 0 := by norm_num
      have e7 : (0 : Int) - 8 = -8 := by norm_num
      rw [e6, e7, ih]
      have e8 : Int.toNat 4 = 4 := rfl
      have e9 : Int.toNat 2 = 2 := rfl
      have e10 : Int.toNat 0 = 0 := rfl
      rw [e8, e9, e10]
      simp only [List.cons.injEq, and_true]
      refine ⟨?_, ?_, ?_⟩
      · simp [Nat.shiftRight_eq_div_pow]
        omega
      · simp [Nat.shiftRight_eq_div_pow]
        omega
      · simp [Nat.shiftRight_eq_div_pow]
        omega
termination_by l.length


theorem base64_roundtrip (l : List Nat) (h : ∀ b ∈ l, b < 256) :
    base64Decode (base64Encode l) = l := by
  unfold base64Encode base64Decode
  rw [encodeAux_eq_encSpec l h 0]
  apply decodeAux_encSpec l h 0
  cases hk : (4 - ((encSpec l).map (fun d => base64Chars.getD d 0)).length % 4) % 4 with
  | zero => left; rfl
  | succ m => right; exact ⟨List.replicate m 61, rfl⟩

theorem nat_xor_cancel (a k : Nat) : a ^^^ k ^^^ k = a := by
  rw [Nat.xor_assoc, Nat.xor_self, Nat.xor_zero]

theorem xorKeyFrom_involutive (l : List Nat) : ∀ i,
    xorKeyFrom i (xorKeyFrom i l) = l := by
  induction l with
  | nil => intro i; rfl
  | cons c rest ih => intro i; simp [xorKeyFrom, nat_xor_cancel, ih (i + 1)]

theorem key_byte_lt (i : Nat) :
    encryptionKey.getD (i % encryptionKey.length) 0 < 256 := by
  have h20 : encryptionKey.length = 20 := rfl
  rw [h20]
  exact (by decide : ∀ j < 20, encryptionKey.getD j 0 < 256) _
    (Nat.mod_lt _ (by norm_num))

theorem xorKeyFrom_lt (l : List Nat) (h : ∀ b ∈ l, b < 256) :
    ∀ i, ∀ b ∈ xorKeyFrom i l, b < 256 := by
  induction l with
  | nil => intro i b hb; simp [xorKeyFrom] at hb
  | cons c rest ih =>
      intro i b hb
      simp only [xorKeyFrom, List.mem_cons] at hb
      rcases hb with h1 | h1
      · subst h1
        have hc : c < 256 := h c (by simp)
        have : (256 : Nat) = 2 ^ 8 := by norm_num
        rw [this]
        exact Nat.xor_lt_two_pow (by omega) (by have := key_byte_lt i; omega)
      · exact ih (fun x hx => h x (by simp [hx])) (i + 1) b h1

theorem base64Encode_ne_nil (l : List Nat) (h : ∀ b ∈ l, b < 256)
    (hl : l ≠ []) : base64Encode l ≠ [] := by
  unfold base64Encode
  rw [encodeAux_eq_encSpec l h 0]
  match l with
  | [] => exact absurd rfl hl
  | [a] => simp [encSpec]
  | [a, b] => simp [encSpec]
  | a :: b :: c :: rest => simp [encSpec]

/-- Claim C8: the string-obfuscation routine is reversible — for every
byte string s, the empty string and arbitrary byte values included,
decryptMessage (encryptMessage s) = s, where encryptMessage XORs with
the fixed key and base64-encodes and decryptMessage base64-decodes and
XORs with the same key. -/
theorem c8_obfuscation_roundtrip (s : List Nat) (h : ∀ b ∈ s, b < 256) :
    decryptMessage (encryptMessage s) = s := by
  by_cases hs : s = []
  · subst hs; rfl
  · unfold encryptMessage decryptMessage
    rw [if_neg hs]
    rw [if_neg (base64Encode_ne_nil (xorKeyFrom 0 s) (xorKeyFrom_lt s h 0) (by
      cases s with
      | nil => exact absurd rfl hs
      | cons c rest => simp [xorKeyFrom]))]
    rw [base64_roundtrip (xorKeyFrom 0 s) (xorKeyFrom_lt s h 0)]
    exact xorKeyFrom_involutive s 0

/-- Witness for C8 at the concrete byte string [0, 255, 7, 70]. -/
theorem c8_obfuscation_roundtrip_witness :
    (∀ b ∈ [0, 255, 7, 70], b < 256) ∧
    decryptMessage (encryptMessage [0, 255, 7, 70]) = [0, 255, 7, 70] :=
  ⟨by decide, c8_obfuscation_roundtrip [0, 255, 7, 70] (by decide)⟩

end MessageEncryption

namespace IOBridge

theorem postedEvents_append (t1 t2 : List Label) :
    postedEvents (t1 ++ t2) = postedEvents t1 ++ postedEvents t2 := by
  simp [postedEvents, List.filterMap_append]

/-- Joint inductive invariant: the single-flight discipline and the
conservation of posted events across queue, snapshots and deliveries. -/
def SysInv (tr : List Label) (s : SysState) : Prop :=
  s.drains.length ≤ 1 ∧
  (s.processingScheduled = false → s.drains = []) ∧
  s.delivered ++ snapshotEvents s ++ s.eventQueue = postedEvents tr

theorem reachableVia_inv {s : SysState} {tr : List Label}
    (h : ReachableVia s tr) : SysInv tr s := by
  induction h with
  | init =>
      exact ⟨by simp [initState], fun _ => rfl,
        by simp [initState, snapshotEvents, postedEvents]⟩
  | @step s tr l s' hr hs ih =>
      obtain ⟨hlen, hflag, hsum⟩ := ih
      cases hs with
      | enqueue e =>
          refine ⟨by simpa using hlen, by simpa using hflag, ?_⟩
          rw [postedEvents_append, ← hsum]
          simp [snapshotEvents, postedEvents]
      | casSucceed hf =>
          have hd := hflag hf
          refine ⟨by simp [hd], by simp, ?_⟩
          rw [postedEvents_append, ← hsum]
          simp [snapshotEvents, postedEvents, hd]
      | casFail hf =>
          refine ⟨hlen, hflag, ?_⟩
          rw [postedEvents_append, ← hsum]
          simp [postedEvents]
      | swap pre post hdr =>
          rw [hdr] at hlen
          simp only [List.length_append, List.length_cons] at hlen
          have hp1 : pre = [] := List.length_eq_zero.mp (by omega)
          have hp2 : post = [] := List.length_eq_zero.mp (by omega)
          subst hp1; subst hp2
          refine ⟨by simp, ?_, ?_⟩
          · intro hf2
            have h0 := hflag (by simpa using hf2)
            rw [hdr] at h0
            simp at h0
          · rw [postedEvents_append, ← hsum]
            simp [snapshotEvents, postedEvents, hdr]
      | deliverOne pre post e rest hdr =>
          rw [hdr] at hlen
          simp only [List.length_append, List.length_cons] at hlen
          have hp1 : pre = [] := List.length_eq_zero.mp (by omega)
          have hp2 : post = [] := List.length_eq_zero.mp (by omega)
          subst hp1; subst hp2
          refine ⟨by simp, ?_, ?_⟩
          · intro hf2
            have h0 := hflag (by simpa using hf2)
            rw [hdr] at h0
            simp at h0
          · rw [postedEvents_append, ← hsum]
            simp [snapshotEvents, postedEvents, hdr]
      | finish pre post hdr =>
          rw [hdr] at hlen
          simp only [List.length_append, List.length_cons] at hlen
          have hp1 : pre = [] := List.length_eq_zero.mp (by omega)
          have hp2 : post = [] := List.length_eq_zero.mp (by omega)
          subst hp1; subst hp2
          refine ⟨by simp, by simp, ?_⟩
          rw [postedEvents_append, ← hsum]
          simp [snapshotEvents, postedEvents, hdr]


/-- Claim C2: at every reachable state, under any interleaving of postX
calls and drain-task executions, at most one drain task is logically in
flight: tasks are submitted only on a successful compare-and-swap of the
single-flight flag, and the flag is cleared only when the running drain
finishes. -/
theorem c2_single_flight (s : SysState) (h : Reachable s) :
    s.drains.length ≤ 1 := by
  obtain ⟨tr, htr⟩ := h
  exact (reachableVia_inv htr).1

/-- Witness for C2 at the state reached after one post and its
successful compare-and-swap. -/
theorem c2_single_flight_witness :
    Reachable ⟨[eventA], true, [.queuedTask], []⟩ ∧
    (⟨[eventA], true, [.queuedTask], []⟩ : SysState).drains.length ≤ 1 := by
  have t1 : ReachableVia ⟨[eventA], false, [], []⟩ [.enqueue eventA] :=
    ReachableVia.step ReachableVia.init (Step.enqueue initState eventA)
  have t2 : ReachableVia ⟨[eventA], true, [.queuedTask], []⟩
      [.enqueue eventA, .cas] :=
    ReachableVia.step t1 (Step.casSucceed _ rfl)
  exact ⟨⟨_, t2⟩, c2_single_flight _ ⟨_, t2⟩⟩

/-- Counterexample to claim C1 as stated: in the reachable final state of
strandedTrace, event B — posted after the drain's snapshot swap and
before the flag clear — sits undelivered in the queue while no drain is
in flight and no drain-side step is enabled, so without a further postX
call it is never delivered by any later drain. -/
theorem c1_stranded_event_counterexample :
    ReachableVia strandedState strandedTrace ∧
    strandedState.eventQueue = [eventB] ∧
    strandedState.delivered = [eventA] ∧
    eventB ∉ strandedState.delivered ∧
    ∀ s', ¬ DrainStep strandedState s' := by
  refine ⟨?_, rfl, rfl, by decide, ?_⟩
  · have t1 : ReachableVia ⟨[eventA], false, [], []⟩ [.enqueue eventA] :=
      ReachableVia.step ReachableVia.init (Step.enqueue initState eventA)
    have t2 : ReachableVia ⟨[eventA], true, [.queuedTask], []⟩
        [.enqueue eventA, .cas] :=
      ReachableVia.step t1 (Step.casSucceed _ rfl)
    have t3 : ReachableVia ⟨[], true, [.delivering [eventA]], []⟩
        [.enqueue eventA, .cas, .swap] :=
      ReachableVia.step t2 (Step.swap _ [] [] rfl)
    have t4 : ReachableVia ⟨[eventB], true, [.delivering [eventA]], []⟩
        [.enqueue eventA, .cas, .swap, .enqueue eventB] :=
      ReachableVia.step t3 (Step.enqueue _ eventB)
    have t5 : ReachableVia ⟨[eventB], true, [.delivering [eventA]], []⟩
        [.enqueue eventA, .cas, .swap, .enqueue eventB, .cas] :=
      ReachableVia.step t4 (Step.casFail _ rfl)
    have t6 : ReachableVia ⟨[eventB], true, [.delivering []], [eventA]⟩
        [.enqueue eventA, .cas, .swap, .enqueue eventB, .cas, .deliverOne] :=
      ReachableVia.step t5 (Step.deliverOne _ [] [] eventA [] rfl)
    exact ReachableVia.step t6 (Step.finish _ [] [] rfl)
  · intro s' hd
    rcases hd with hstep | hstep | hstep <;> cases hstep <;>
      simp_all [strandedState]

/-- Claim C1 (amended): along every trace, the delivered events followed
by the in-flight snapshot remainder and the queued events are exactly
the posted events in order — no event is duplicated, reordered or
invented, and an event posted after a drain's snapshot swap but before
the flag clear stays queued, delivered only if a later postX triggers
another drain. -/
theorem c1_exactly_once_per_trace (s : SysState) (tr : List Label)
    (h : ReachableVia s tr) :
    s.delivered ++ snapshotEvents s ++ s.eventQueue = postedEvents tr :=
  (reachableVia_inv h).2.2

/-- Witness for C1's amended theorem after one posted event. -/
theorem c1_exactly_once_per_trace_witness :
    ReachableVia ⟨[eventA], true, [.queuedTask], []⟩ [.enqueue eventA, .cas] ∧
    ([] : List Event) ++
        snapshotEvents ⟨[eventA], true, [.queuedTask], []⟩ ++ [eventA] =
      postedEvents [.enqueue eventA, .cas] := by
  have t1 : ReachableVia ⟨[eventA], false, [], []⟩ [.enqueue eventA] :=
    ReachableVia.step ReachableVia.init (Step.enqueue initState eventA)
  have t2 : ReachableVia ⟨[eventA], true, [.queuedTask], []⟩
      [.enqueue eventA, .cas] :=
    ReachableVia.step t1 (Step.casSucceed _ rfl)
  exact ⟨t2, c1_exactly_once_per_trace _ _ t2⟩

/-- Claim C9: every postX call made while the bridge is not initialized
or no listener is registered returns with the state unchanged and no
drain task submitted — the event is discarded, not queued. -/
theorem c9_post_uninitialized_dropped (st : BridgeState)
    (h : isInitialized st = false) :
    (∀ id s, postStringEvent st id s = (st, false)) ∧
    (∀ id i, postIntEvent st id i = (st, false)) ∧
    (∀ id bits, postFloatEvent st id bits = (st, false)) ∧
    (∀ id bits, postDoubleEvent st id bits = (st, false)) ∧
    (∀ id b, postBooleanEvent st id b = (st, false)) ∧
    (∀ id bytes, postByteArrayEvent st id bytes = (st, false)) := by
  refine ⟨fun id s => ?_, fun id i => ?_, fun id bits => ?_, fun id bits => ?_,
    fun id b => ?_, fun id bytes => ?_⟩ <;>
    simp [postStringEvent, postIntEvent, postFloatEvent, postDoubleEvent,
      postBooleanEvent, postByteArrayEvent, postEvent, h]

/-- Witness for C9 at a bridge with a JVM but no registered listener. -/
theorem c9_post_uninitialized_dropped_witness :
    isInitialized ⟨true, false, true, [], false⟩ = false ∧
    postStringEvent ⟨true, false, true, [], false⟩ "socket_message" "hello" =
      (⟨true, false, true, [], false⟩, false) :=
  ⟨by decide,
    (c9_post_uninitialized_dropped _ (by decide)).1 "socket_message" "hello"⟩

end IOBridge

namespace ThreadManager

theorem beforeStop_eq_self (tr : List PoolLabel)
    (h : PoolLabel.setStop ∉ tr) : beforeStop tr = tr := by
  induction tr with
  | nil => rfl
  | cons l rest ih =>
      have h1 : l ≠ PoolLabel.setStop := fun he => h (he ▸ List.mem_cons_self l rest)
      have h2 : PoolLabel.setStop ∉ rest := fun hx => h (List.mem_cons_of_mem _ hx)
      cases l with
      | setStop => exact absurd rfl h1
      | submit t => simp [beforeStop, ih h2]
      | runTask => simp [beforeStop, ih h2]
      | workerExit => simp [beforeStop, ih h2]

theorem beforeStop_append_of_not_mem (tr : List PoolLabel) (l : PoolLabel)
    (h : PoolLabel.setStop ∉ tr) :
    beforeStop (tr ++ [l]) = tr ++ beforeStop [l] := by
  induction tr with
  | nil => simp
  | cons a rest ih =>
      have h1 : a ≠ PoolLabel.setStop := fun he => h (he ▸ List.mem_cons_self a rest)
      have h2 : PoolLabel.setStop ∉ rest := fun hx => h (List.mem_cons_of_mem _ hx)
      cases a with
      | setStop => exact absurd rfl h1
      | submit t => simp [beforeStop, ih h2]
      | runTask => simp [beforeStop, ih h2]
      | workerExit => simp [beforeStop, ih h2]

theorem beforeStop_append_of_mem (tr : List PoolLabel) (l : PoolLabel)
    (h : PoolLabel.setStop ∈ tr) :
    beforeStop (tr ++ [l]) = beforeStop tr := by
  induction tr with
  | nil => simp at h
  | cons a rest ih =>
      cases a with
      | setStop => simp [beforeStop]
      | submit t =>
          have h2 : PoolLabel.setStop ∈ rest := by
            rcases List.mem_cons.mp h with h1 | h1
            · exact absurd h1.symm (by simp)
            · exact h1
          simp [beforeStop, ih h2]
      | runTask =>
          have h2 : PoolLabel.setStop ∈ rest := by
            rcases List.mem_cons.mp h with h1 | h1
            · exact absurd h1.symm (by simp)
            · exact h1
          simp [beforeStop, ih h2]
      | workerExit =>
          have h2 : PoolLabel.setStop ∈ rest := by
            rcases List.mem_cons.mp h with h1 | h1
            · exact absurd h1.symm (by simp)
            · exact h1
          simp [beforeStop, ih h2]

theorem acceptedSubmits_snoc_submit (tr : List PoolLabel) (t : Nat)
    (h : PoolLabel.setStop ∉ tr) :
    acceptedSubmits (tr ++ [PoolLabel.submit t]) = acceptedSubmits tr ++ [t] := by
  unfold acceptedSubmits
  rw [beforeStop_append_of_not_mem tr _ h, beforeStop_eq_self tr h,
    List.filterMap_append]
  simp [beforeStop]

theorem acceptedSubmits_snoc_submit_stopped (tr : List PoolLabel) (t : Nat)
    (h : PoolLabel.setStop ∈ tr) :
    acceptedSubmits (tr ++ [PoolLabel.submit t]) = acceptedSubmits tr := by
  unfold acceptedSubmits
  rw [beforeStop_append_of_mem tr _ h]

theorem acceptedSubmits_snoc_other (tr : List PoolLabel) (l : PoolLabel)
    (hl : ∀ t, l ≠ PoolLabel.submit t) :
    acceptedSubmits (tr ++ [l]) = acceptedSubmits tr := by
  by_cases hm : PoolLabel.setStop ∈ tr
  · unfold acceptedSubmits
    rw [beforeStop_append_of_mem tr _ hm]
  · unfold acceptedSubmits
    rw [beforeStop_append_of_not_mem tr _ hm, beforeStop_eq_self tr hm,
      List.filterMap_append]
    cases l with
    | submit t => exact absurd rfl (hl t)
    | setStop => simp [beforeStop]
    | runTask => simp [beforeStop]
    | workerExit => simp [beforeStop]

/-- Joint inductive invariant of the pool: executed tasks plus the queue
are exactly the accepted submits in order; the stop flag records whether
setStop occurred; and with a nonempty pool, all workers gone means the
stop flag is set and the queue has been drained. -/
def PoolInv (n : Nat) (tr : List PoolLabel) (s : PoolState) : Prop :=
  s.ran ++ s.taskQueue = acceptedSubmits tr ∧
  (s.stopPool = true ↔ PoolLabel.setStop ∈ tr) ∧
  (0 < n → s.workers = 0 → s.stopPool = true ∧ s.taskQueue = [])

theorem poolReachVia_inv {n : Nat} {s : PoolState} {tr : List PoolLabel}
    (h : PoolReachVia n s tr) : PoolInv n tr s := by
  induction h with
  | init =>
      refine ⟨rfl, by simp [initPool, acceptedSubmits, beforeStop], ?_⟩
      intro hn h0
      simp [initPool] at h0
      omega
  | @step s tr l s' hr hs ih =>
      obtain ⟨hsum, hstop, hwork⟩ := ih
      cases hs with
      | submitAccept t hf =>
          have hnot : PoolLabel.setStop ∉ tr := fun hm => by
            have := hstop.mpr hm
            rw [hf] at this
            exact Bool.false_ne_true this
          refine ⟨?_, ?_, ?_⟩
          · rw [acceptedSubmits_snoc_submit tr t hnot, ← hsum]
            simp
          · simpa using hstop
          · intro hn h0
            have := (hwork hn (by simpa using h0)).1
            rw [hf] at this
            exact absurd this (by simp)
      | submitDropped t hf =>
          refine ⟨?_, ?_, ?_⟩
          · rw [acceptedSubmits_snoc_submit_stopped tr t (hstop.mp hf)]
            exact hsum
          · simpa using hstop
          · exact hwork
      | setStop =>
          refine ⟨?_, ?_, ?_⟩
          · rw [acceptedSubmits_snoc_other tr _ (by simp)]
            simpa using hsum
          · simp
          · intro hn h0
            exact ⟨rfl, (hwork hn (by simpa using h0)).2⟩
      | runTask t rest hq hw =>
          refine ⟨?_, ?_, ?_⟩
          · rw [acceptedSubmits_snoc_other tr _ (by simp), ← hsum, hq]
            simp
          · simpa using hstop
          · intro hn h0
            simp at h0
            omega
      | workerExit hf hq hw =>
          refine ⟨?_, ?_, ?_⟩
          · rw [acceptedSubmits_snoc_other tr _ (by simp)]
            simpa using hsum
          · simpa using hstop
          · intro hn h0
            exact ⟨hf, hq⟩

/-- Counterexample to claim C3 as stated: with one worker, a task
submitted before shutdown and not yet dequeued when the stop flag is set
is nevertheless executed — after all workers have exited, ran = [1]
although no task had been dequeued before setStop. -/
theorem c3_discarded_tasks_counterexample :
    PoolReachVia 1 shutdownState shutdownTrace ∧
    shutdownState.ran = [1] ∧
    shutdownState.workers = 0 ∧
    (beforeStop shutdownTrace).count PoolLabel.runTask = 0 := by
  refine ⟨?_, rfl, rfl, by decide⟩
  have t1 : PoolReachVia 1 ⟨[1], false, 1, []⟩ [.submit 1] :=
    PoolReachVia.step PoolReachVia.init (PoolStep.submitAccept 1 rfl)
  have t2 : PoolReachVia 1 ⟨[1], true, 1, []⟩ [.submit 1, .setStop] :=
    PoolReachVia.step t1 PoolStep.setStop
  have t3 : PoolReachVia 1 ⟨[], true, 1, [1]⟩ [.submit 1, .setStop, .runTask] :=
    PoolReachVia.step t2 (PoolStep.runTask 1 [] rfl (by norm_num))
  exact PoolReachVia.step t3 (PoolStep.workerExit rfl rfl (by norm_num))

/-- Claim C3 (amended): queued-but-unstarted tasks at shutdown are not
discarded — a worker exits only once the stop flag is set and the queue
is empty, so for a pool with at least one worker, when every worker has
exited (shutdown's joins have returned) the tasks that ran are exactly
the accepted submits, in FIFO order; the final queue-clear in
shutdownThreadPool only discards tasks when the pool has no workers. -/
theorem c3_workers_drain_queue (n : Nat) (s : PoolState)
    (tr : List PoolLabel) (h : PoolReachVia n s tr) (hn : 0 < n)
    (hw : s.workers = 0) :
    s.ran = acceptedSubmits tr := by
  obtain ⟨hsum, _, hwork⟩ := poolReachVia_inv h
  have hq := (hwork hn hw).2
  rw [← hsum, hq, List.append_nil]

/-- Witness for C3's amended theorem on the concrete one-worker trace. -/
theorem c3_workers_drain_queue_witness :
    PoolReachVia 1 shutdownState shutdownTrace ∧ 0 < 1 ∧
    shutdownState.workers = 0 ∧
    shutdownState.ran = acceptedSubmits shutdownTrace := by
  have t1 : PoolReachVia 1 ⟨[1], false, 1, []⟩ [.submit 1] :=
    PoolReachVia.step PoolReachVia.init (PoolStep.submitAccept 1 rfl)
  have t2 : PoolReachVia 1 ⟨[1], true, 1, []⟩ [.submit 1, .setStop] :=
    PoolReachVia.step t1 PoolStep.setStop
  have t3 : PoolReachVia 1 ⟨[], true, 1, [1]⟩ [.submit 1, .setStop, .runTask] :=
    PoolReachVia.step t2 (PoolStep.runTask 1 [] rfl (by norm_num))
  have t4 : PoolReachVia 1 shutdownState shutdownTrace :=
    PoolReachVia.step t3 (PoolStep.workerExit rfl rfl (by norm_num))
  exact ⟨t4, by norm_num, rfl, c3_workers_drain_queue 1 _ _ t4 (by norm_num) rfl⟩

end ThreadManager

namespace SocketManager

theorem readBE32_be32 (n : Nat) (h : n < 2 ^ 32) : readBE32 (be32 n) = n := by
  simp only [be32, readBE32]
  omega

/-- Claim C4 (amended): every client in the sender's snapshot is handed
exactly 4 + len(payload) bytes whose big-endian prefix decodes to
len(payload) and whose body equals the payload — for every payload
length below 2^32, with no maximum-frame-size check on the send path,
so messages at or above BUFFER_SIZE are still transmitted as single
frames. -/
theorem c4_broadcast_framing (message : List Nat)
    (clients : List ClientConnection) (h : message.length < 2 ^ 32) :
    (sendBatch message clients).length = (clientSnapshot clients).length ∧
    ∀ p ∈ sendBatch message clients,
      p.2.length = 4 + message.length ∧
      readBE32 (p.2.take 4) = message.length ∧
      p.2.drop 4 = message := by
  constructor
  · simp [sendBatch]
  · intro p hp
    simp only [sendBatch, List.mem_map] at hp
    obtain ⟨fd, _, hpe⟩ := hp
    subst hpe
    have hm : message.length % 2 ^ 32 = message.length := Nat.mod_eq_of_lt h
    refine ⟨?_, ?_, ?_⟩
    · simp [frameFor, be32]
      omega
    · simp only [frameFor, be32, hm, List.cons_append, List.nil_append]
      rw [show List.take 4 (message.length / 2 ^ 24 % 256 ::
        message.length / 2 ^ 16 % 256 :: message.length / 2 ^ 8 % 256 ::
        message.length % 256 :: message) = be32 message.length by
          simp [be32, List.take]]
      exact readBE32_be32 message.length h
    · simp [frameFor, be32, List.drop]

/-- Counterexample to claim C4 as stated: a 5000-byte payload is at or
above the maximum frame size BUFFER_SIZE = 4096, yet sendWorker
transmits it to a snapshotted client as one single frame of 4 + 5000
bytes — the send path has no maximum-frame-size check. -/
theorem c4_overmax_single_frame_counterexample :
    BUFFER_SIZE ≤ (List.replicate 5000 65).length ∧
    sendBatch (List.replicate 5000 65) [⟨5, true, true⟩] =
      [(5, frameFor (List.replicate 5000 65))] ∧
    (frameFor (List.replicate 5000 65)).length = 4 + 5000 := by
  have hgen : ∀ m : List Nat, sendBatch m [⟨5, true, true⟩] =
      [(5, frameFor m)] := fun m => rfl
  refine ⟨by rw [List.length_replicate]; norm_num [BUFFER_SIZE], hgen _, ?_⟩
  simp only [frameFor, be32, List.cons_append, List.nil_append,
    List.length_cons, List.length_replicate]

/-- Witness for C4's amended theorem on a 2-byte payload and one
connected client. -/
theorem c4_broadcast_framing_witness :
    ([104, 105] : List Nat).length < 2 ^ 32 ∧
    ((sendBatch [104, 105] [⟨5, true, true⟩]).length =
      (clientSnapshot [⟨5, true, true⟩]).length ∧
     ∀ p ∈ sendBatch [104, 105] [⟨5, true, true⟩],
       p.2.length = 4 + ([104, 105] : List Nat).length ∧
       readBE32 (p.2.take 4) = ([104, 105] : List Nat).length ∧
       p.2.drop 4 = [104, 105]) :=
  ⟨by decide, c4_broadcast_framing [104, 105] [⟨5, true, true⟩] (by decide)⟩

theorem extractFirst_split (pre post : List ClientConnection)
    (c : ClientConnection) (fd : Int) (hpre : ∀ x ∈ pre, x.socketFd ≠ fd)
    (hc : c.socketFd = fd) :
    extractFirst (pre ++ c :: post) fd =
      some ({ c with isConnected := false }, pre ++ post) := by
  induction pre with
  | nil => simp [extractFirst, hc]
  | cons p ps ih =>
      have hp : p.socketFd ≠ fd := hpre p (List.mem_cons_self p ps)
      have ih2 := ih fun x hx => hpre x (List.mem_cons_of_mem _ hx)
      simp [extractFirst, hp, ih2]

theorem extractFirst_none (l : List ClientConnection) (fd : Int)
    (h : ∀ x ∈ l, x.socketFd ≠ fd) : extractFirst l fd = none := by
  induction l with
  | nil => rfl
  | cons p ps ih =>
      simp [extractFirst, h p (List.mem_cons_self p ps),
        ih fun x hx => h x (List.mem_cons_of_mem _ hx)]

theorem extractFirst_rem_mem {l : List ClientConnection} {fd : Int}
    {f : ClientConnection} {rem : List ClientConnection}
    (h : extractFirst l fd = some (f, rem)) :
    (∀ x ∈ l, x.socketFd ≠ fd → x ∈ rem) ∧ (∀ x ∈ rem, x ∈ l) := by
  induction l generalizing f rem with
  | nil => simp [extractFirst] at h
  | cons c cs ih =>
      by_cases hc : c.socketFd = fd
      · simp only [extractFirst, if_pos hc, Option.some.injEq, Prod.mk.injEq]
          at h
        obtain ⟨h1, h2⟩ := h
        subst h2
        constructor
        · intro x hx hne
          rcases List.mem_cons.mp hx with h3 | h3
          · exact absurd (h3 ▸ hc) hne
          · exact h3
        · intro x hx
          exact List.mem_cons_of_mem _ hx
      · simp only [extractFirst, if_neg hc] at h
        cases hcs : extractFirst cs fd with
        | none => rw [hcs] at h; simp at h
        | some pr =>
            obtain ⟨f', rem'⟩ := pr
            rw [hcs] at h
            simp only [Option.some.injEq, Prod.mk.injEq] at h
            obtain ⟨h1, h2⟩ := h
            subst h2
            obtain ⟨ihm, ihs⟩ := ih hcs
            constructor
            · intro x hx hne
              rcases List.mem_cons.mp hx with h3 | h3
              · exact h3 ▸ List.mem_cons_self c rem'
              · exact List.mem_cons_of_mem _ (ihm x h3 hne)
            · intro x hx
              rcases List.mem_cons.mp hx with h3 | h3
              · exact h3 ▸ List.mem_cons_self c cs
              · exact List.mem_cons_of_mem _ (ihs x h3)

/-- Claim C5: removal is idempotent — with a unique matching descriptor
in the active list, the first removeClient call detaches the connection
marked disconnected, closes its (nonnegative) descriptor, joins its
reader thread and raises exactly one connection-count event with the
updated count, while a second call for the same descriptor finds no
entry and does nothing at all. -/
theorem c5_remove_idempotent (pre post : List ClientConnection)
    (c : ClientConnection) (bridge : Bool)
    (hpre : ∀ x ∈ pre, x.socketFd ≠ c.socketFd)
    (hpost : ∀ x ∈ post, x.socketFd ≠ c.socketFd)
    (hfd : 0 ≤ c.socketFd) (hj : c.joinable = true) (hb : bridge = true) :
    removeClient (pre ++ c :: post) bridge c.socketFd =
      (pre ++ post,
       { removed := some { c with isConnected := false },
         closedFd := some c.socketFd,
         joined := true,
         countEvent := some (getConnectedClientCount (pre ++ post)) }) ∧
    removeClient (pre ++ post) bridge c.socketFd = (pre ++ post, noEffects) := by
  constructor
  · unfold removeClient
    rw [extractFirst_split pre post c c.socketFd hpre rfl]
    simp [hfd, hj, hb]
  · unfold removeClient
    rw [extractFirst_none (pre ++ post) c.socketFd
      (fun x hx => (List.mem_append.mp hx).elim (hpre x) (hpost x))]

/-- Witness for C5 on a three-client list with descriptors 3, 5, 7. -/
theorem c5_remove_idempotent_witness :
    (∀ x ∈ [(⟨3, true, true⟩ : ClientConnection)], x.socketFd ≠ 5) ∧
    (∀ x ∈ [(⟨7, true, true⟩ : ClientConnection)], x.socketFd ≠ 5) ∧
    (removeClient [⟨3, true, true⟩, ⟨5, true, true⟩, ⟨7, true, true⟩] true 5 =
      ([⟨3, true, true⟩, ⟨7, true, true⟩],
       { removed := some ⟨5, false, true⟩,
         closedFd := some 5,
         joined := true,
         countEvent := some (getConnectedClientCount
           [⟨3, true, true⟩, ⟨7, true, true⟩]) }) ∧
     removeClient [⟨3, true, true⟩, ⟨7, true, true⟩] true 5 =
      ([⟨3, true, true⟩, ⟨7, true, true⟩], noEffects)) :=
  ⟨by decide, by decide,
    c5_remove_idempotent [⟨3, true, true⟩] [⟨7, true, true⟩] ⟨5, true, true⟩
      true (by decide) (by decide) (by decide) rfl rfl⟩

/-- Claim C6: startServer on an already-running server returns false and
leaves every field of the server state — listening socket, running
flag, client list, connections — exactly as it was. -/
theorem c6_start_already_running (s : ServerState) (os : OsCalls)
    (port : Int) (h : s.isRunning = true) :
    startServer s os port = (false, s) := by
  simp [startServer, h]

/-- Witness for C6 on a running server with two clients. -/
theorem c6_start_already_running_witness :
    ({ serverSocket := 3, isRunning := true, port := 9000,
       clients := [⟨4, true, true⟩, ⟨6, true, true⟩], stopSending := false,
       acceptThreadStarted := true, sendThreadStarted := true } :
        ServerState).isRunning = true ∧
    startServer
      { serverSocket := 3, isRunning := true, port := 9000,
        clients := [⟨4, true, true⟩, ⟨6, true, true⟩], stopSending := false,
        acceptThreadStarted := true, sendThreadStarted := true }
      { socketResult := 7, setsockoptOk := true, bindOk := true,
        listenOk := true } 9000 =
      (false,
       { serverSocket := 3, isRunning := true, port := 9000,
         clients := [⟨4, true, true⟩, ⟨6, true, true⟩], stopSending := false,
         acceptThreadStarted := true, sendThreadStarted := true }) :=
  ⟨rfl, c6_start_already_running _ _ _ rfl⟩

/-- Claim C7: every framing violation in the per-client reader loop — a
short read of the 4-byte prefix, a length of zero or above BUFFER_SIZE,
or a short read of the payload — ends that client's loop with no
message forwarded from the bad frame, and the removal it triggers
touches only the client with that descriptor: clients with other
descriptors stay in the list, and no client is added. -/
theorem c7_framing_violations :
    (∀ input : List Nat, input.length < 4 →
        handleClientLoop input = ([], .shortHeader)) ∧
    (∀ a b c d : Nat, ∀ rest : List Nat,
        (((a * 256 + b) * 256 + c) * 256 + d = 0 ∨
          BUFFER_SIZE < ((a * 256 + b) * 256 + c) * 256 + d) →
        handleClientLoop (a :: b :: c :: d :: rest) =
          ([], .badLength (((a * 256 + b) * 256 + c) * 256 + d))) ∧
    (∀ a b c d : Nat, ∀ rest : List Nat,
        ¬(((a * 256 + b) * 256 + c) * 256 + d = 0 ∨
          BUFFER_SIZE < ((a * 256 + b) * 256 + c) * 256 + d) →
        rest.length < ((a * 256 + b) * 256 + c) * 256 + d →
        handleClientLoop (a :: b :: c :: d :: rest) =
          ([], .shortBody (((a * 256 + b) * 256 + c) * 256 + d))) ∧
    (∀ (clients : List ClientConnection) (bridge : Bool) (fd : Int)
        (input : List Nat),
        (handleClient clients bridge fd input).2 =
          removeClient clients bridge fd ∧
        (∀ x ∈ clients, x.socketFd ≠ fd →
          x ∈ (removeClient clients bridge fd).1) ∧
        (∀ x ∈ (removeClient clients bridge fd).1, x ∈ clients)) := by
  refine ⟨?_, ?_, ?_, ?_⟩
  · intro input h
    match input with
    | [] => simp [handleClientLoop]
    | [a] => simp [handleClientLoop]
    | [a, b] => simp [handleClientLoop]
    | [a, b, c] => simp [handleClientLoop]
    | a :: b :: c :: d :: rest => simp at h; omega
  · intro a b c d rest h
    rw [handleClientLoop, dif_pos h]
  · intro a b c d rest h0 h1
    rw [handleClientLoop, dif_neg h0, dif_pos h1]
  · intro clients bridge fd input
    have hrem : (∀ x ∈ clients, x.socketFd ≠ fd →
        x ∈ (removeClient clients bridge fd).1) ∧
        (∀ x ∈ (removeClient clients bridge fd).1, x ∈ clients) := by
      rcases hext : extractFirst clients fd with _ | ⟨f, rem⟩
      · have hre : removeClient clients bridge fd = (clients, noEffects) := by
          unfold removeClient
          rw [hext]
        rw [hre]
        exact ⟨fun x hx _ => hx, fun x hx => hx⟩
      · have hre : (removeClient clients bridge fd).1 = rem := by
          unfold removeClient
          rw [hext]
        rw [hre]
        exact ⟨(extractFirst_rem_mem hext).1, (extractFirst_rem_mem hext).2⟩
    exact ⟨rfl, hrem.1, hrem.2⟩

/-- Witness for C7 on concrete violating inputs and a two-client list. -/
theorem c7_framing_violations_witness :
    handleClientLoop [1, 2] = ([], .shortHeader) ∧
    handleClientLoop [0, 0, 0, 0] = ([], .badLength 0) ∧
    handleClientLoop [0, 0, 0, 5, 9, 9] = ([], .shortBody 5) ∧
    ((⟨3, true, true⟩ : ClientConnection) ∈
      (removeClient [⟨3, true, true⟩, ⟨5, true, true⟩] true 5).1) := by
  refine ⟨?_, ?_, ?_, ?_⟩
  · exact c7_framing_violations.1 [1, 2] (by decide)
  · exact c7_framing_violations.2.1 0 0 0 0 [] (by decide)
  · exact c7_framing_violations.2.2.1 0 0 0 5 [9, 9] (by decide) (by decide)
  · exact (c7_framing_violations.2.2.2 [⟨3, true, true⟩, ⟨5, true, true⟩]
      true 5 []).2.1 ⟨3, true, true⟩ (by decide) (by decide)

end SocketManager

namespace BlobStorage

/-- Claim C10: saveMessages returns false for a null data pointer or a
zero length before touching the filesystem — an empty blob can never be
stored — while loadMessages on a missing file succeeds with empty
bytes. -/
theorem c10_save_rejects_empty (fs : FS) (os : FsOracle) (filePath : String)
    (data : Option (List Nat)) (length : Nat)
    (h : data = none ∨ length = 0) :
    saveMessages fs os filePath data length = (false, fs) ∧
    (fs.lookup filePath = none → loadMessages fs filePath = (true, [])) := by
  constructor
  · unfold saveMessages
    rw [if_pos h]
  · intro hm
    unfold loadMessages
    rw [hm]

/-- Witness for C10 with a null data pointer and a missing file. -/
theorem c10_save_rejects_empty_witness :
    ((none : Option (List Nat)) = none ∨ (5 : Nat) = 0) ∧
    (saveMessages [("a/b", [1])] ⟨true, true, true⟩ "a/c" none 5 =
      (false, [("a/b", [1])]) ∧
     (List.lookup "a/c" [("a/b", [1])] = none →
       loadMessages [("a/b", [1])] "a/c" = (true, []))) :=
  ⟨Or.inl rfl, c10_save_rejects_empty _ _ _ _ _ (Or.inl rfl)⟩

end BlobStorage
